import Mathlib

/-!
Verification of the fetch-normalize-partition pipeline of
`linz_traffic_scraper.py` (Linz traffic data scraper).

The Python source is shallowly embedded below:
pure record/string manipulation becomes Lean functions on `List Char`
and association lists; the network-facing fetch loop and the batch
orchestrator become deterministic functions over an explicit script of
responses, with their side effects (sleeps, auth attempts, file writes)
reified as trace data.
-/

namespace LinzScraper

/-! ## Data model

JSON values appearing as record fields.  Record field values are either
strings (the only case the day-key logic can process) or some non-string
JSON value; applying Python string operations to a non-string raises
`TypeError`, which `process_traffic_data` catches and counts as a skipped
record, so a single `nonStr` constructor suffices for the control flow. -/

inductive JVal where
  | str (s : String)
  | nonStr
deriving DecidableEq, Repr

/-- A record: a Python dict, i.e. an insertion-ordered mapping from field
name to value, embedded as an association list with unique keys. -/
abbrev Rec := List (String × JVal)

/-- An element of a JSON array payload: either a JSON object (a record)
or some non-object value (`isinstance(record, dict)` fails). -/
inductive Item where
  | obj (fields : Rec)
  | nonObj
deriving DecidableEq, Repr

/-- Python `key in d` / `d[key]` on a dict, embedded as first-match lookup
(keys are unique in a Python dict, so first-match is exact). -/
def lookupField (fields : Rec) (k : String) : Option JVal :=
  (fields.find? (fun p => p.1 = k)).map (fun p => p.2)

/-! ## Day-key derivation (process_traffic_data, lines 383-394)

Python `text.split(sep)` for a one-character separator. `"".split(s)`
is `[""]`, consecutive separators yield empty components, and the result
is never the empty list. -/

def pySplitChar (sep : Char) : List Char → List (List Char)
  | [] => [[]]
  | c :: cs =>
    if c = sep then [] :: pySplitChar sep cs
    else
      match pySplitChar sep cs with
      | [] => [[c]]
      | g :: gs => (c :: g) :: gs

/-- Embeds lines 385-388: `if " " in date: date_key = date.split(" ")[0]
else: date_key = date`. -/
def stripTimeL (d : List Char) : List Char :=
  if ' ' ∈ d then (pySplitChar ' ' d).headD [] else d

/-- Embeds lines 391-394: if the date text contains a slash and splits
into exactly three slash-separated components, re-join them with dashes
(f-string over parts 0,1,2); otherwise leave the text unchanged. -/
def slashFixL (dk : List Char) : List Char :=
  if '/' ∈ dk then
    match pySplitChar '/' dk with
    | [p0, p1, p2] => p0 ++ '-' :: (p1 ++ '-' :: p2)
    | _ => dk
  else dk

/-- The full day-key derivation applied to a `datum` string. -/
def dayKeyL (d : List Char) : List Char :=
  slashFixL (stripTimeL d)

/-- Day-key derivation on `String`. -/
def dayKey (d : String) : String :=
  ⟨dayKeyL d.data⟩

/-! ## Grouping records by day (process_traffic_data, lines 371-411) -/

/-- Embeds `organized_data[date_key].append(record)` together with the
`if date_key not in organized_data: organized_data[date_key] = []`
initialisation: a Python dict keeps keys in insertion order, so a new key
goes at the end, and records are appended at the end of their bucket. -/
def addRecord (buckets : List (String × List Rec)) (k : String) (x : Rec) :
    List (String × List Rec) :=
  match buckets with
  | [] => [(k, [x])]
  | (k', xs) :: rest =>
    if k' = k then (k', xs ++ [x]) :: rest
    else (k', xs) :: addRecord rest k x

/-- The record loop of `process_traffic_data` (lines 376-405), carrying
the `organized_data` dict and the `skipped_records` counter.  A non-dict
element, a record without a `datum` key, and a record whose `datum` is
not a string (so that `" " in date` raises `TypeError`, caught at line
400) are all counted as skipped; a record with a string `datum` is
appended to the bucket of its derived day-key. -/
def processGo (buckets : List (String × List Rec)) (skipped : Nat) :
    List Item → List (String × List Rec) × Nat
  | [] => (buckets, skipped)
  | it :: rest =>
    match it with
    | .nonObj => processGo buckets (skipped + 1) rest
    | .obj x =>
      match lookupField x "datum" with
      | some (.str d) => processGo (addRecord buckets (dayKey d) x) skipped rest
      | _ => processGo buckets (skipped + 1) rest

/-- The list branch of `process_traffic_data`: the organized buckets and
the final skipped-record count. -/
def processList (items : List Item) : List (String × List Rec) × Nat :=
  processGo [] 0 items

/-- Total number of records across all day buckets. -/
def bucketSizes (buckets : List (String × List Rec)) : Nat :=
  (buckets.map (fun p => p.2.length)).sum

/-- Canonical `MM-DD-YYYY` day-key shape, following the spec's words in
the PartitionedResult data-model entry: two digits, two digits, four
digits, separated by dashes, month then day then year. -/
def isCanonicalMMDDYYYY (s : String) : Bool :=
  match pySplitChar '-' s.data with
  | [m, d, y] =>
    (m.length == 2 && m.all Char.isDigit) &&
    (d.length == 2 && d.all Char.isDigit) &&
    (y.length == 4 && y.all Char.isDigit)
  | _ => false

/-- Records in any bucket of `buckets` carry a string `datum` whose
day-key is the bucket's key. -/
def BucketInv (buckets : List (String × List Rec)) : Prop :=
  ∀ k xs, (k, xs) ∈ buckets → ∀ x ∈ xs,
    ∃ d, lookupField x "datum" = some (JVal.str d) ∧ dayKey d = k

/-! ## Python str.strip -/

/-- The whitespace stripped by Python `str.strip()`: exactly the code
points for which `str.isspace()` returns True (0x09-0x0D, 0x1C-0x20,
0x85, 0xA0 NBSP, 0x1680, 0x2000-0x200A, 0x2028, 0x2029, 0x202F, 0x205F,
0x3000). -/
def isPySpace (c : Char) : Bool :=
  decide ((9 ≤ c.toNat ∧ c.toNat ≤ 13) ∨ (28 ≤ c.toNat ∧ c.toNat ≤ 32) ∨
    c.toNat = 133 ∨ c.toNat = 160 ∨ c.toNat = 5760 ∨
    (8192 ≤ c.toNat ∧ c.toNat ≤ 8202) ∨ c.toNat = 8232 ∨ c.toNat = 8233 ∨
    c.toNat = 8239 ∨ c.toNat = 8287 ∨ c.toNat = 12288)

/-- Python `text.strip()`: drop whitespace from both ends. -/
def pyStripL (l : List Char) : List Char :=
  ((l.dropWhile isPySpace).reverse.dropWhile isPySpace).reverse

/-- Python `text.strip()` on `String`. -/
def pyStrip (s : String) : String :=
  ⟨pyStripL s.data⟩

/-! ## Python csv.reader (process_csv_response, line 264)

The CPython `csv` tokenizer for `delimiter=','`, `quotechar='"'`,
`doublequote=True`, `strict=False`, reading from a `StringIO`.  The
states mirror the C implementation; because the line iterator splits the
text after each `'\n'`, the end-of-line marker always follows a `'\n'`
character (and the end of input), so its effect is folded into the
`'\n'` transitions below.  A regular character while eating a CR that
was not followed by a line break raises `Error` (new-line character seen
in unquoted field), surfacing as `Except.error`, which the caller
catches. -/

inductive CState where
  | startRec
  | startFld
  | inFld
  | inQuoted
  | quoteInQuoted
  | eatCrnl
deriving DecidableEq, Repr

/-- One run of the csv tokenizer: remaining input, state, current field
(reversed), current row.  Emitted rows are prepended to the result of
parsing the rest.  At end of input a pending field/row is flushed
(non-strict mode). -/
def csvRun : List Char → CState → List Char → List String → Except Unit (List (List String))
  | [], st, f, row =>
    match st with
    | .startRec => .ok []
    | .eatCrnl => .ok [row]
    | _ => .ok [row ++ [⟨f.reverse⟩]]
  | c :: cs, st, f, row =>
    match st with
    | .startRec =>
      if c = '\n' then (csvRun cs .startRec [] []).map (fun rs => [] :: rs)
      else if c = '\r' then csvRun cs .eatCrnl [] []
      else if c = '"' then csvRun cs .inQuoted [] []
      else if c = ',' then csvRun cs .startFld [] [""]
      else csvRun cs .inFld [c] []
    | .startFld =>
      if c = '\n' then (csvRun cs .startRec [] []).map (fun rs => (row ++ [""]) :: rs)
      else if c = '\r' then csvRun cs .eatCrnl [] (row ++ [""])
      else if c = '"' then csvRun cs .inQuoted [] row
      else if c = ',' then csvRun cs .startFld [] (row ++ [""])
      else csvRun cs .inFld [c] row
    | .inFld =>
      if c = '\n' then (csvRun cs .startRec [] []).map (fun rs => (row ++ [⟨f.reverse⟩]) :: rs)
      else if c = '\r' then csvRun cs .eatCrnl [] (row ++ [⟨f.reverse⟩])
      else if c = ',' then csvRun cs .startFld [] (row ++ [⟨f.reverse⟩])
      else csvRun cs .inFld (c :: f) row
    | .inQuoted =>
      if c = '"' then csvRun cs .quoteInQuoted f row
      else csvRun cs .inQuoted (c :: f) row
    | .quoteInQuoted =>
      if c = '"' then csvRun cs .inQuoted ('"' :: f) row
      else if c = '\n' then (csvRun cs .startRec [] []).map (fun rs => (row ++ [⟨f.reverse⟩]) :: rs)
      else if c = '\r' then csvRun cs .eatCrnl [] (row ++ [⟨f.reverse⟩])
      else if c = ',' then csvRun cs .startFld [] (row ++ [⟨f.reverse⟩])
      else csvRun cs .inFld (c :: f) row
    | .eatCrnl =>
      if c = '\n' then (csvRun cs .startRec [] []).map (fun rs => row :: rs)
      else if c = '\r' then csvRun cs .eatCrnl f row
      else .error ()

/-- Parse a whole text with the csv reader. -/
def parseCsv (s : String) : Except Unit (List (List String)) :=
  csvRun s.data .startRec [] []

/-! ## CSV writing (QUOTE_ALL) -/

/-- Double every quote character (the `doublequote=True` escaping the
csv writer applies inside a quoted field). -/
def escQ : List Char → List Char
  | [] => []
  | c :: cs => if c = '"' then '"' :: '"' :: escQ cs else c :: escQ cs

/-- One cell written under `quoting=csv.QUOTE_ALL`. -/
def quoteCell (s : String) : List Char :=
  '"' :: (escQ s.data ++ ['"'])

/-- One row: cells joined by the delimiter. -/
def rowChars : List String → List Char
  | [] => []
  | [c] => quoteCell c
  | c :: c2 :: rest => quoteCell c ++ ',' :: rowChars (c2 :: rest)

/-- Rows each followed by the line terminator `term`. -/
def tableCharsWith (term : List Char) : List (List String) → List Char
  | [] => []
  | r :: rs => rowChars r ++ (term ++ tableCharsWith term rs)

/-- Output-format selection (the process-wide OUTPUT_FORMAT). -/
inductive OutFmt where
  | json
  | csv
deriving DecidableEq, Repr

/-- Result shapes of `process_csv_response`: a list of records (JSON
output), or the `{"raw_text": ...}` / `{"csv_text": ...}` wrapper
dicts. -/
inductive CsvResult where
  | records (rs : List Rec)
  | rawText (t : String)
  | csvText (t : String)
deriving DecidableEq, Repr

/-- Python dict insertion: overwrite in place if the key exists,
otherwise append (used to embed the dict comprehension at line 281,
where a duplicate header would overwrite at the first position). -/
def dictInsert : List (String × String) → String → String → List (String × String)
  | [], k, v => [(k, v)]
  | (k', v') :: rest, k, v =>
    if k' = k then (k, v) :: rest else (k', v') :: dictInsert rest k v

/-- Build a Python dict from a list of key-value pairs in order. -/
def mkDict (l : List (String × String)) : List (String × String) :=
  l.foldl (fun d p => dictInsert d p.1 p.2) []

/-- The dict comprehension `{headers[i]: row[i].strip() for i in
range(len(headers))}` of line 281 (only reached when the row length
equals the header count). -/
def rowEntry (hs : List String) (row : List String) : Rec :=
  (mkDict (hs.zip (row.map pyStrip))).map (fun p => (p.1, JVal.str p.2))

/-- Embeds `process_csv_response`: strip the text, tokenize it, fall
back to the `raw_text` wrapper on an empty/parse-degraded input, and
otherwise either build one record per matching-width row (JSON output)
or re-serialize the kept rows with all fields quoted and `'\n'`
terminators (CSV output).  The `raw_text` wrapper carries the variable
`csv_text` as it stands at that point, i.e. the stripped text. -/
def process_csv_response (fmt : OutFmt) (csv_text : String) : CsvResult :=
  let t := pyStrip csv_text
  match parseCsv t with
  | .error _ => .rawText t
  | .ok [] => .rawText t
  | .ok (headers :: rows) =>
    if headers = [] then .rawText t
    else
      let hs := headers.map pyStrip
      let keep := rows.filter (fun r => !r.isEmpty && r.length == hs.length)
      match fmt with
      | .json => .records (keep.map (rowEntry hs))
      | .csv => .csvText ⟨tableCharsWith ['\n'] (hs :: keep)⟩

/-! ## save_data_by_day CSV serialization (lines 472-486)

`csv.DictWriter(f, fieldnames=headers, quoting=csv.QUOTE_ALL)` with the
default `'\r\n'` line terminator: a header row taken from the first
record's field names, then each record's values in that order. -/

/-- A fetched payload, as far as the pipeline distinguishes shapes: a
JSON array or a JSON object (`response.json()` output, or the wrapper
dicts produced by `process_csv_response`). -/
inductive Data where
  | list (items : List Item)
  | dict (fields : Rec)
deriving DecidableEq, Repr

/-- Lift a `process_csv_response` result to a payload. -/
def CsvResult.toData : CsvResult → Data
  | .records rs => .list (rs.map Item.obj)
  | .rawText t => .dict [("raw_text", JVal.str t)]
  | .csvText t => .dict [("csv_text", JVal.str t)]

/-- Result shapes of `process_traffic_data`: the day-keyed buckets, the
pass-through of a `raw_text`/`csv_text` wrapper dict, or the
`{"unexpected_format": True, "raw_data": data}` wrapper. -/
inductive PTResult where
  | organized (buckets : List (String × List Rec))
  | passthrough (fields : Rec)
  | unexpected (orig : Data)
deriving DecidableEq, Repr

/-- Embeds `process_traffic_data` (lines 352-415): dicts carrying
`raw_text` or `csv_text` pass through; lists are grouped by day; any
other shape is wrapped as unexpected. -/
def process_traffic_data (data : Data) : PTResult :=
  match data with
  | .dict fields =>
    if (lookupField fields "raw_text").isSome || (lookupField fields "csv_text").isSome then
      .passthrough fields
    else .unexpected (.dict fields)
  | .list items => .organized (processGo [] 0 items).1

/-- What one HTTP GET to the values endpoint yields: a transport-level
exception (`requests.RequestException`), or a status code with a body
that either decodes as JSON or is plain text. -/
inductive BodyE where
  | json (d : Data)
  | text (t : String)
deriving DecidableEq, Repr

inductive RespE where
  | exn
  | http (code : Nat) (body : BodyE)
deriving DecidableEq, Repr

/-- Observable effects of one `fetch_dataset` call: how many GETs were
issued, how many token re-acquisitions were attempted, and the backoff
sleeps performed, in order. -/
structure FetchTrace where
  requests : Nat
  authAttempts : Nat
  sleeps : List Nat
deriving DecidableEq, Repr

/-- Body handling on a 200 response (lines 224-231): return the decoded
JSON, or hand the text to `process_csv_response`. -/
def decodeBody (fmt : OutFmt) : BodyE → Option Data
  | .json d => some d
  | .text t => some (process_csv_response fmt t).toData

/-- The retry loop of `fetch_dataset` (lines 174-247).  The environment
is a script: `resps n` is the outcome of the n-th GET issued, `auths n`
whether the n-th `get_auth_token` call obtains a token.  On 401 the code
attempts one re-acquisition and, if a token was obtained, immediately
re-issues the GET: a second 401 returns `None` at once, any other
status falls through to the normal non-200 backoff handling.  Non-200
non-401 statuses and transport exceptions increment `retry_count` and
sleep `2 ^ retry_count` seconds if another attempt remains. -/
def fetchGo (fmt : OutFmt) (resps : Nat → RespE) (auths : Nat → Bool)
    (retry : Nat) (tr : FetchTrace) : Option Data × FetchTrace :=
  if _h : retry < 3 then
    match resps tr.requests with
    | .exn =>
      if retry + 1 < 3 then
        fetchGo fmt resps auths (retry + 1)
          { tr with requests := tr.requests + 1, sleeps := tr.sleeps ++ [2 ^ (retry + 1)] }
      else (none, { tr with requests := tr.requests + 1 })
    | .http code body =>
      if code = 401 then
        if auths tr.authAttempts then
          let tr2 : FetchTrace :=
            ⟨tr.requests + 2, tr.authAttempts + 1, tr.sleeps⟩
          match resps (tr.requests + 1) with
          | .exn =>
            if retry + 1 < 3 then
              fetchGo fmt resps auths (retry + 1)
                { tr2 with sleeps := tr2.sleeps ++ [2 ^ (retry + 1)] }
            else (none, tr2)
          | .http code2 body2 =>
            if code2 = 401 then (none, tr2)
            else if code2 ≠ 200 then
              if retry + 1 < 3 then
                fetchGo fmt resps auths (retry + 1)
                  { tr2 with sleeps := tr2.sleeps ++ [2 ^ (retry + 1)] }
              else (none, tr2)
            else (decodeBody fmt body2, tr2)
        else
          (none, ⟨tr.requests + 1, tr.authAttempts + 1, tr.sleeps⟩)
      else if code ≠ 200 then
        if retry + 1 < 3 then
          fetchGo fmt resps auths (retry + 1)
            { tr with requests := tr.requests + 1, sleeps := tr.sleeps ++ [2 ^ (retry + 1)] }
        else (none, { tr with requests := tr.requests + 1 })
      else (decodeBody fmt body, { tr with requests := tr.requests + 1 })
  else (none, tr)
termination_by 3 - retry
decreasing_by all_goals omega

/-- One `fetch_dataset` call: the loop entered with `retry_count = 0`
and an empty trace. -/
def fetch_dataset (fmt : OutFmt) (resps : Nat → RespE) (auths : Nat → Bool) :
    Option Data × FetchTrace :=
  fetchGo fmt resps auths 0 ⟨0, 0, []⟩

/-- A status that is neither success nor an authorization expiry. -/
def errStatus : RespE → Bool
  | .http code _ => decide (code ≠ 200) && decide (code ≠ 401)
  | .exn => false

/-- Persistence and pacing effects of the batch loop, in order. -/
inductive Action where
  | saveRaw (ds : String) (d : Data)
  | saveByDay (ds : String) (r : PTResult)
  | sleep (n : Nat)
deriving DecidableEq, Repr

/-- Python truthiness of a payload (`if data:`): empty lists and empty
dicts are falsy. -/
def dataTruthy : Data → Bool
  | .list items => !items.isEmpty
  | .dict fields => !fields.isEmpty

/-- Truthiness of an `Optional` payload: `None` is falsy. -/
def truthy : Option Data → Bool
  | none => false
  | some d => dataTruthy d

/-- The loop of `fetch_and_save_all_datasets` (lines 516-533), carrying
the `success` flag, the `successful_datasets` counter and the persisted
actions.  `fetchOf ds` is the outcome of `fetch_dataset` for dataset
`ds`.  A truthy payload is saved raw, then day-partitioned and saved by
day; every iteration ends with the fixed 2-second inter-dataset
sleep. -/
def batchGo (fetchOf : String → Option Data) :
    List String → Bool → Nat → List Action → Bool × Nat × List Action
  | [], success, cnt, acts => (success, cnt, acts)
  | ds :: rest, success, cnt, acts =>
    match fetchOf ds with
    | some d =>
      if dataTruthy d then
        batchGo fetchOf rest true (cnt + 1)
          (acts ++ [.saveRaw ds d, .saveByDay ds (process_traffic_data d), .sleep 2])
      else batchGo fetchOf rest success cnt (acts ++ [.sleep 2])
    | none => batchGo fetchOf rest success cnt (acts ++ [.sleep 2])

/-- One `fetch_and_save_all_datasets` run over the configured dataset
list. -/
def fetch_and_save_all_datasets (fetchOf : String → Option Data)
    (datasets : List String) : Bool × Nat × List Action :=
  batchGo fetchOf datasets false 0 []

/-- The actions one dataset contributes to the batch run. -/
def perDataset (fetchOf : String → Option Data) (ds : String) : List Action :=
  match fetchOf ds with
  | some d =>
    if dataTruthy d then
      [.saveRaw ds d, .saveByDay ds (process_traffic_data d), .sleep 2]
    else [.sleep 2]
  | none => [.sleep 2]

/-! ## Lemmas about Python split -/

theorem pySplitChar_of_not_mem (sep : Char) (l : List Char) (h : sep ∉ l) :
    pySplitChar sep l = [l] := by
  induction l with
  | nil => rfl
  | cons c cs ih =>
    have hc : ¬ c = sep := fun e => h (by simp [e])
    have hcs : sep ∉ cs := fun hm => h (List.mem_cons_of_mem _ hm)
    simp [pySplitChar, hc, ih hcs]

theorem pySplitChar_append (sep : Char) (a b : List Char) (h : sep ∉ a) :
    pySplitChar sep (a ++ sep :: b) = a :: pySplitChar sep b := by
  induction a with
  | nil => simp [pySplitChar]
  | cons c cs ih =>
    have hc : ¬ c = sep := fun e => h (by simp [e])
    have hcs : sep ∉ cs := fun hm => h (List.mem_cons_of_mem _ hm)
    simp [pySplitChar, hc, ih hcs]

theorem stripTimeL_append_space (pre rest : List Char) (h : ' ' ∉ pre) :
    stripTimeL (pre ++ ' ' :: rest) = pre := by
  unfold stripTimeL
  rw [if_pos (by simp), pySplitChar_append _ _ _ h]
  rfl

theorem stripTimeL_of_not_mem (d : List Char) (h : ' ' ∉ d) :
    stripTimeL d = d := by
  unfold stripTimeL
  rw [if_neg h]

theorem slashFixL_three (a b c : List Char)
    (ha : '/' ∉ a) (hb : '/' ∉ b) (hc : '/' ∉ c) :
    slashFixL (a ++ '/' :: (b ++ '/' :: c)) = a ++ '-' :: (b ++ '-' :: c) := by
  unfold slashFixL
  rw [if_pos (by simp), pySplitChar_append _ _ _ ha, pySplitChar_append _ _ _ hb,
    pySplitChar_of_not_mem _ _ hc]

theorem slashFixL_of_not_mem (dk : List Char) (h : '/' ∉ dk) :
    slashFixL dk = dk := by
  unfold slashFixL
  rw [if_neg h]

theorem slashFixL_of_not_three (dk : List Char) (h : '/' ∈ dk)
    (hn : (pySplitChar '/' dk).length ≠ 3) :
    slashFixL dk = dk := by
  unfold slashFixL
  rw [if_pos h]
  split
  · next p0 p1 p2 hp => exact absurd (by rw [hp]; rfl) hn
  · rfl

/-! ## Lemmas about the grouping loop -/

theorem bucketSizes_addRecord (buckets : List (String × List Rec)) (k : String) (x : Rec) :
    bucketSizes (addRecord buckets k x) = bucketSizes buckets + 1 := by
  induction buckets with
  | nil => rfl
  | cons p rest ih =>
    obtain ⟨k', xs⟩ := p
    by_cases hk : k' = k
    · simp [addRecord, hk, bucketSizes]
      omega
    · simp [addRecord, hk, bucketSizes] at ih ⊢
      omega

theorem processGo_size (items : List Item) :
    ∀ (buckets : List (String × List Rec)) (skipped : Nat),
      bucketSizes (processGo buckets skipped items).1 + (processGo buckets skipped items).2 =
        bucketSizes buckets + skipped + items.length := by
  induction items with
  | nil => intro buckets skipped; simp [processGo]
  | cons it rest ih =>
    intro buckets skipped
    match it with
    | .nonObj =>
      simp only [processGo]
      rw [ih]
      simp; omega
    | .obj x =>
      match hx : lookupField x "datum" with
      | some (.str d) =>
        simp only [processGo, hx]
        rw [ih, bucketSizes_addRecord]
        simp; omega
      | some .nonStr =>
        simp only [processGo, hx]
        rw [ih]
        simp; omega
      | none =>
        simp only [processGo, hx]
        rw [ih]
        simp; omega

theorem bucketInv_addRecord {buckets : List (String × List Rec)} {k : String} {x : Rec}
    (hb : BucketInv buckets)
    (hx : ∃ d, lookupField x "datum" = some (JVal.str d) ∧ dayKey d = k) :
    BucketInv (addRecord buckets k x) := by
  induction buckets with
  | nil =>
    intro k' xs' hmem y hy
    simp [addRecord] at hmem
    obtain ⟨hk, hxs⟩ := hmem
    subst hk; subst hxs
    simp at hy
    subst hy
    exact hx
  | cons p rest ih =>
    obtain ⟨k0, xs0⟩ := p
    have hrest : BucketInv rest := fun k' xs' hm => hb k' xs' (List.mem_cons_of_mem _ hm)
    by_cases hk : k0 = k
    · intro k' xs' hmem y hy
      simp [addRecord, hk] at hmem
      rcases hmem with ⟨hk', hxs⟩ | hm
      · subst hk'; subst hxs
        rcases List.mem_append.mp hy with hy0 | hy1
        · exact hb k' xs0 (by simp [hk]) y hy0
        · simp at hy1
          subst hy1
          exact hk ▸ hx
      · exact hrest k' xs' hm y hy
    · intro k' xs' hmem y hy
      simp only [addRecord, if_neg hk] at hmem
      rcases List.mem_cons.mp hmem with hm0 | hm1
      · have : k' = k0 ∧ xs' = xs0 := by
          constructor <;> [exact congrArg Prod.fst hm0; exact congrArg Prod.snd hm0]
        obtain ⟨h1, h2⟩ := this
        subst h1; subst h2
        exact hb k' xs' (by simp) y hy
      · exact ih hrest k' xs' hm1 y hy

theorem processGo_inv (items : List Item) :
    ∀ (buckets : List (String × List Rec)) (skipped : Nat),
      BucketInv buckets → BucketInv (processGo buckets skipped items).1 := by
  induction items with
  | nil => intro buckets skipped hb; simpa [processGo] using hb
  | cons it rest ih =>
    intro buckets skipped hb
    match it with
    | .nonObj => exact ih _ _ hb
    | .obj x =>
      match hx : lookupField x "datum" with
      | some (.str d) =>
        simp only [processGo, hx]
        exact ih _ _ (bucketInv_addRecord hb ⟨d, hx, rfl⟩)
      | some .nonStr => simp only [processGo, hx]; exact ih _ _ hb
      | none => simp only [processGo, hx]; exact ih _ _ hb

theorem processGo_skipped_of_wf (items : List Item)
    (hw : ∀ it ∈ items, ∃ x d, it = Item.obj x ∧ lookupField x "datum" = some (JVal.str d)) :
    ∀ (buckets : List (String × List Rec)) (skipped : Nat),
      (processGo buckets skipped items).2 = skipped := by
  induction items with
  | nil => intro buckets skipped; rfl
  | cons it rest ih =>
    intro buckets skipped
    obtain ⟨x, d, hit, hd⟩ := hw it (List.mem_cons_self it rest)
    subst hit
    have hrest := fun it hm => hw it (List.mem_cons_of_mem _ hm)
    simp only [processGo, hd]
    exact ih hrest _ _

theorem addRecord_self_mem (buckets : List (String × List Rec)) (k : String) (x : Rec) :
    ∃ xs, (k, xs) ∈ addRecord buckets k x ∧ x ∈ xs := by
  induction buckets with
  | nil => exact ⟨[x], by simp [addRecord]⟩
  | cons p rest ih =>
    obtain ⟨k0, xs0⟩ := p
    by_cases hk : k0 = k
    · subst hk
      exact ⟨xs0 ++ [x], by simp [addRecord]⟩
    · obtain ⟨xs, hmem, hx⟩ := ih
      exact ⟨xs, by simp [addRecord, hk, hmem], hx⟩

theorem addRecord_mem_mono {buckets : List (String × List Rec)} {k' : String}
    {xs' : List Rec} {y : Rec} (hmem : (k', xs') ∈ buckets) (hy : y ∈ xs')
    (k : String) (x : Rec) :
    ∃ xs, (k', xs) ∈ addRecord buckets k x ∧ y ∈ xs := by
  induction buckets with
  | nil => simp at hmem
  | cons p rest ih =>
    obtain ⟨k0, xs0⟩ := p
    by_cases hk : k0 = k
    · rcases List.mem_cons.mp hmem with hm0 | hm1
      · have h1 : k' = k0 := congrArg Prod.fst hm0
        have h2 : xs' = xs0 := congrArg Prod.snd hm0
        subst h1; subst h2
        exact ⟨xs' ++ [x], by simp [addRecord, hk], by simp [hy]⟩
      · exact ⟨xs', by simp [addRecord, hk, hm1], hy⟩
    · rcases List.mem_cons.mp hmem with hm0 | hm1
      · have h1 : k' = k0 := congrArg Prod.fst hm0
        have h2 : xs' = xs0 := congrArg Prod.snd hm0
        subst h1; subst h2
        exact ⟨xs', by simp [addRecord, hk], hy⟩
      · obtain ⟨xs, hxs, hyxs⟩ := ih hm1
        exact ⟨xs, by simp [addRecord, hk, hxs], hyxs⟩

theorem processGo_mem_pres (items : List Item) :
    ∀ (buckets : List (String × List Rec)) (skipped : Nat) (k : String)
      (xs : List Rec) (y : Rec), (k, xs) ∈ buckets → y ∈ xs →
      ∃ xs', (k, xs') ∈ (processGo buckets skipped items).1 ∧ y ∈ xs' := by
  induction items with
  | nil =>
    intro buckets skipped k xs y hmem hy
    exact ⟨xs, hmem, hy⟩
  | cons it rest ih =>
    intro buckets skipped k xs y hmem hy
    match it with
    | .nonObj => exact ih _ _ _ _ _ hmem hy
    | .obj x =>
      match hx : lookupField x "datum" with
      | some (.str d) =>
        simp only [processGo, hx]
        obtain ⟨xs1, hxs1, hy1⟩ := addRecord_mem_mono hmem hy (dayKey d) x
        exact ih _ _ _ _ _ hxs1 hy1
      | some .nonStr => simp only [processGo, hx]; exact ih _ _ _ _ _ hmem hy
      | none => simp only [processGo, hx]; exact ih _ _ _ _ _ hmem hy

theorem processGo_mem_of_item (items : List Item) :
    ∀ (buckets : List (String × List Rec)) (skipped : Nat) (x : Rec) (d : String),
      Item.obj x ∈ items → lookupField x "datum" = some (JVal.str d) →
      ∃ xs, (dayKey d, xs) ∈ (processGo buckets skipped items).1 ∧ x ∈ xs := by
  induction items with
  | nil => intro _ _ _ _ hmem; simp at hmem
  | cons it rest ih =>
    intro buckets skipped x d hmem hd
    rcases List.mem_cons.mp hmem with hx0 | hx1
    · subst hx0
      simp only [processGo, hd]
      obtain ⟨xs1, hxs1, hx1⟩ := addRecord_self_mem buckets (dayKey d) x
      exact processGo_mem_pres rest _ _ _ _ _ hxs1 hx1
    · match it with
      | .nonObj => exact ih _ _ _ _ hx1 hd
      | .obj x' =>
        match hx' : lookupField x' "datum" with
        | some (.str d') => simp only [processGo, hx']; exact ih _ _ _ _ hx1 hd
        | some .nonStr => simp only [processGo, hx']; exact ih _ _ _ _ hx1 hd
        | none => simp only [processGo, hx']; exact ih _ _ _ _ hx1 hd

theorem digit_ne_seps (c : Char) (h : c.isDigit = true) :
    c ≠ '-' ∧ c ≠ '/' ∧ c ≠ ' ' := by
  refine ⟨?_, ?_, ?_⟩ <;> intro e <;> subst e <;> exact absurd h (by decide)

theorem digits_not_mem (l : List Char) (h : l.all Char.isDigit = true) :
    '-' ∉ l ∧ '/' ∉ l ∧ ' ' ∉ l := by
  refine ⟨?_, ?_, ?_⟩ <;> intro hm
  · exact (digit_ne_seps _ (List.all_eq_true.mp h _ hm)).1 rfl
  · exact (digit_ne_seps _ (List.all_eq_true.mp h _ hm)).2.1 rfl
  · exact (digit_ne_seps _ (List.all_eq_true.mp h _ hm)).2.2 rfl

/-! ## Claim theorems -/

/-- C1: for a `datum` containing a space, the day-key derivation keeps
only the text before the first space and then applies the separator
substitution; a date text made of exactly three slash-free components
joined by slashes is re-joined with dashes in the same order; in
particular "2024-05-01 14:30:00" maps to "2024-05-01" and "05/01/2024"
maps to "05-01-2024". -/
theorem C1_day_key_derivation :
    (∀ pre rest : List Char, ' ' ∉ pre →
      dayKeyL (pre ++ ' ' :: rest) = slashFixL pre) ∧
    (∀ a b c : List Char, '/' ∉ a → '/' ∉ b → '/' ∉ c →
      slashFixL (a ++ '/' :: (b ++ '/' :: c)) = a ++ '-' :: (b ++ '-' :: c)) ∧
    dayKey "2024-05-01 14:30:00" = "2024-05-01" ∧
    dayKey "05/01/2024" = "05-01-2024" := by
  refine ⟨?_, slashFixL_three, by decide, by decide⟩
  intro pre rest h
  unfold dayKeyL
  rw [stripTimeL_append_space _ _ h]

/-- C1 witness: the two general parts instantiated at the spec's
concrete examples. -/
theorem C1_day_key_derivation_witness :
    dayKeyL (("2024-05-01").data ++ ' ' :: ("14:30:00").data) =
      slashFixL ("2024-05-01").data ∧
    slashFixL (("05").data ++ '/' :: (("01").data ++ '/' :: ("2024").data)) =
      ("05").data ++ '-' :: (("01").data ++ '-' :: ("2024").data) :=
  ⟨C1_day_key_derivation.1 _ _ (by decide),
   C1_day_key_derivation.2.1 _ _ _ (by decide) (by decide) (by decide)⟩

/-- C2: every record in a day bucket carries a string `datum` whose
day-key is exactly the bucket's key; the bucket sizes plus the
skipped-record count always equal the number of input records (no record
is lost or duplicated); and when every input element is a dict with a
string `datum`, nothing is skipped and the sizes sum to N. -/
theorem C2_partition_invariant (items : List Item) :
    (∀ k xs, (k, xs) ∈ (processList items).1 → ∀ x ∈ xs,
      ∃ d, lookupField x "datum" = some (JVal.str d) ∧ dayKey d = k) ∧
    bucketSizes (processList items).1 + (processList items).2 = items.length ∧
    ((∀ it ∈ items, ∃ x d, it = Item.obj x ∧ lookupField x "datum" = some (JVal.str d)) →
      (processList items).2 = 0 ∧ bucketSizes (processList items).1 = items.length) := by
  have hsize : bucketSizes (processList items).1 + (processList items).2 = items.length := by
    have h := processGo_size items [] 0
    simpa [processList, bucketSizes] using h
  refine ⟨?_, hsize, ?_⟩
  · intro k xs hm x hx
    exact processGo_inv items [] 0 (fun k' xs' h => by simp at h) k xs hm x hx
  · intro hw
    have h2 : (processList items).2 = 0 := processGo_skipped_of_wf items hw [] 0
    exact ⟨h2, by omega⟩

/-- C2 witness: a one-record well-formed input partitions with no record
skipped and sizes summing to the input length. -/
theorem C2_partition_invariant_witness :
    (processList [Item.obj [("datum", JVal.str "05/01/2024")]]).2 = 0 ∧
    bucketSizes (processList [Item.obj [("datum", JVal.str "05/01/2024")]]).1 =
      [Item.obj [("datum", JVal.str "05/01/2024")]].length :=
  (C2_partition_invariant _).2.2 (by
    intro it hit
    simp only [List.mem_singleton] at hit
    exact ⟨_, "05/01/2024", hit, rfl⟩)

/-- C7 counterexample: the dash-form datum "2024-05-01 14:30:00" is
grouped under day-key "2024-05-01", which is not a canonical MM-DD-YYYY
string (its first dash component has four digits, not two: the code only
substitutes separators and never reorders year/month/day). -/
theorem C7_counterexample :
    (processList [Item.obj [("datum", JVal.str "2024-05-01 14:30:00")]]).1.map Prod.fst =
      ["2024-05-01"] ∧
    isCanonicalMMDDYYYY "2024-05-01" = false := by
  constructor
  · decide
  · decide

/-- C7 amended: a day-key is canonical MM-DD-YYYY exactly when the
source date was slash-form with all-digit components of widths 2, 2, 4:
for such a datum the key is the same components dash-joined (hence
MM-DD-YYYY); dash-form dates keep their original component order. -/
theorem C7_canonical_for_slash_dates (m d y : List Char)
    (hm : m.all Char.isDigit = true) (hd : d.all Char.isDigit = true)
    (hy : y.all Char.isDigit = true)
    (hml : m.length = 2) (hdl : d.length = 2) (hyl : y.length = 4) :
    dayKey ⟨m ++ '/' :: (d ++ '/' :: y)⟩ = ⟨m ++ '-' :: (d ++ '-' :: y)⟩ ∧
    isCanonicalMMDDYYYY ⟨m ++ '-' :: (d ++ '-' :: y)⟩ = true := by
  obtain ⟨hmd, hms, hmsp⟩ := digits_not_mem m hm
  obtain ⟨hdd, hds, hdsp⟩ := digits_not_mem d hd
  obtain ⟨hyd, hys, hysp⟩ := digits_not_mem y hy
  have hnospace : ' ' ∉ m ++ '/' :: (d ++ '/' :: y) := by
    intro hmem
    simp only [List.mem_append, List.mem_cons] at hmem
    rcases hmem with h | h | h | h | h
    · exact hmsp h
    · exact absurd h (by decide)
    · exact hdsp h
    · exact absurd h (by decide)
    · exact hysp h
  constructor
  · show (⟨dayKeyL (m ++ '/' :: (d ++ '/' :: y))⟩ : String) = _
    rw [dayKeyL, stripTimeL_of_not_mem _ hnospace, slashFixL_three m d y hms hds hys]
  · show (match pySplitChar '-' (m ++ '-' :: (d ++ '-' :: y)) with
      | [m', d', y'] =>
        (m'.length == 2 && m'.all Char.isDigit) &&
        (d'.length == 2 && d'.all Char.isDigit) &&
        (y'.length == 4 && y'.all Char.isDigit)
      | _ => false) = true
    rw [pySplitChar_append _ _ _ hmd, pySplitChar_append _ _ _ hdd,
      pySplitChar_of_not_mem _ _ hyd]
    simp [hml, hdl, hyl, hm, hd, hy]

/-- C7 amended witness: the slash-form date 05/01/2024. -/
theorem C7_canonical_for_slash_dates_witness :
    dayKey ⟨("05").data ++ '/' :: (("01").data ++ '/' :: ("2024").data)⟩ =
      ⟨("05").data ++ '-' :: (("01").data ++ '-' :: ("2024").data)⟩ ∧
    isCanonicalMMDDYYYY ⟨("05").data ++ '-' :: (("01").data ++ '-' :: ("2024").data)⟩ = true :=
  C7_canonical_for_slash_dates _ _ _ (by decide) (by decide) (by decide)
    (by decide) (by decide) (by decide)

/-- C10: a datum whose date portion contains a slash but does not split
into exactly three slash components keeps its original text as day-key
(no substitution), and such a record is still grouped under that key,
not skipped. -/
theorem C10_slash_without_three_parts (d : String)
    (hs : '/' ∈ stripTimeL d.data)
    (hn : (pySplitChar '/' (stripTimeL d.data)).length ≠ 3) :
    dayKey d = ⟨stripTimeL d.data⟩ ∧
    ∀ (items : List Item) (x : Rec), Item.obj x ∈ items →
      lookupField x "datum" = some (JVal.str d) →
      ∃ xs, (⟨stripTimeL d.data⟩, xs) ∈ (processList items).1 ∧ x ∈ xs := by
  have hk : dayKey d = ⟨stripTimeL d.data⟩ := by
    show (⟨dayKeyL d.data⟩ : String) = _
    rw [dayKeyL, slashFixL_of_not_three _ hs hn]
  refine ⟨hk, ?_⟩
  intro items x hmem hd
  have h := processGo_mem_of_item items [] 0 x d hmem hd
  rw [hk] at h
  exact h

theorem batchGo_spec (fetchOf : String → Option Data) (datasets : List String) :
    ∀ (success : Bool) (cnt : Nat) (acts : List Action),
      batchGo fetchOf datasets success cnt acts =
        (success || datasets.any (fun ds => truthy (fetchOf ds)),
         cnt + (datasets.filter (fun ds => truthy (fetchOf ds))).length,
         acts ++ (datasets.map (perDataset fetchOf)).flatten) := by
  induction datasets with
  | nil => intro success cnt acts; simp [batchGo]
  | cons ds rest ih =>
    intro success cnt acts
    match hf : fetchOf ds with
    | some d =>
      by_cases ht : dataTruthy d = true
      · simp only [batchGo, hf, ht, if_true, ih]
        simp [truthy, hf, ht, perDataset]
        omega
      · simp only [batchGo, hf, ht, if_false, ih]
        simp [truthy, hf, perDataset, ht]
    | none =>
      simp only [batchGo, hf, ih]
      simp [truthy, hf, perDataset]

theorem batchGo_congr (fetchOf fetchOf' : String → Option Data)
    (h : ∀ ds, fetchOf ds = fetchOf' ds ∨
      (truthy (fetchOf ds) = false ∧ truthy (fetchOf' ds) = false)) :
    ∀ (l : List String) (s : Bool) (c : Nat) (a : List Action),
      batchGo fetchOf l s c a = batchGo fetchOf' l s c a := by
  intro l
  induction l with
  | nil => intro s c a; rfl
  | cons ds rest ih =>
    intro s c a
    rcases h ds with heq | ⟨ht1, ht2⟩
    · match hf : fetchOf' ds with
      | some d =>
        have hfd : fetchOf ds = some d := heq.trans hf
        by_cases htr : dataTruthy d = true
        · simp only [batchGo, hfd, hf, if_pos htr]
          exact ih _ _ _
        · simp only [batchGo, hfd, hf, if_neg htr]
          exact ih _ _ _
      | none =>
        have hfd : fetchOf ds = none := heq.trans hf
        simp only [batchGo, hfd, hf]
        exact ih _ _ _
    · match hf : fetchOf ds, hf' : fetchOf' ds with
      | some d, some d' =>
        rw [hf] at ht1
        rw [hf'] at ht2
        simp only [truthy] at ht1 ht2
        simp [batchGo, hf, hf', ht1, ht2, ih]
      | some d, none =>
        rw [hf] at ht1
        simp only [truthy] at ht1
        simp [batchGo, hf, hf', ht1, ih]
      | none, some d' =>
        rw [hf'] at ht2
        simp only [truthy] at ht2
        simp [batchGo, hf, hf', ht2, ih]
      | none, none =>
        simp [batchGo, hf, hf', ih]

/-- C8: the batch run is the in-order concatenation of per-dataset
action blocks: a dataset whose fetch result is truthy contributes a raw
save, then the day-partitioned save, then the pacing sleep, while a
failed (or falsy) fetch contributes only the sleep and the loop goes on;
the overall flag is true iff some dataset's fetch result was truthy (the
loop's notion of success), and the reported count counts exactly
those. -/
theorem C8_batch_loop (fetchOf : String → Option Data) (datasets : List String) :
    fetch_and_save_all_datasets fetchOf datasets =
      (datasets.any (fun ds => truthy (fetchOf ds)),
       (datasets.filter (fun ds => truthy (fetchOf ds))).length,
       (datasets.map (perDataset fetchOf)).flatten) ∧
    (∀ ds d, fetchOf ds = some d → dataTruthy d = true →
      perDataset fetchOf ds =
        [Action.saveRaw ds d, Action.saveByDay ds (process_traffic_data d),
         Action.sleep 2]) ∧
    (∀ ds, truthy (fetchOf ds) = false → perDataset fetchOf ds = [Action.sleep 2]) := by
  refine ⟨?_, ?_, ?_⟩
  · rw [fetch_and_save_all_datasets, batchGo_spec]
    simp
  · intro ds d hf ht
    simp [perDataset, hf, ht]
  · intro ds ht
    match hf : fetchOf ds with
    | some d =>
      rw [hf] at ht
      simp only [truthy] at ht
      simp [perDataset, hf, ht]
    | none => simp [perDataset, hf]

/-- C8 witness: one truthy dataset and one failed dataset. -/
theorem C8_batch_loop_witness :
    perDataset (fun _ => some (Data.list [Item.nonObj])) "a" =
      [Action.saveRaw "a" (Data.list [Item.nonObj]),
       Action.saveByDay "a" (process_traffic_data (Data.list [Item.nonObj])),
       Action.sleep 2] ∧
    perDataset (fun _ : String => none) "b" = [Action.sleep 2] :=
  ⟨(C8_batch_loop (fun _ => some (Data.list [Item.nonObj])) ["a"]).2.1 "a" _ rfl rfl,
   (C8_batch_loop (fun _ : String => none) ["b"]).2.2 "b" rfl⟩

/-- C9: a fetch that succeeds with an empty payload (empty list or empty
dict) is falsy, so the batch loop treats the dataset exactly as if the
fetch had failed: the whole run is unchanged if its result is replaced
by `None`, and such a dataset alone yields an unsuccessful run with
nothing persisted. -/
theorem C9_empty_payload_like_failure (fetchOf : String → Option Data)
    (datasets : List String) (ds : String)
    (he : fetchOf ds = some (Data.list []) ∨ fetchOf ds = some (Data.dict [])) :
    truthy (fetchOf ds) = false ∧
    fetch_and_save_all_datasets fetchOf datasets =
      fetch_and_save_all_datasets (fun d => if d = ds then none else fetchOf d) datasets ∧
    fetch_and_save_all_datasets fetchOf [ds] = (false, 0, [Action.sleep 2]) := by
  have ht : truthy (fetchOf ds) = false := by
    rcases he with he | he <;> rw [he] <;> rfl
  refine ⟨ht, ?_, ?_⟩
  · rw [fetch_and_save_all_datasets, fetch_and_save_all_datasets]
    apply batchGo_congr
    intro d
    by_cases hd : d = ds
    · subst hd
      right
      exact ⟨ht, by simp [truthy]⟩
    · left
      simp [hd]
  · rw [fetch_and_save_all_datasets, batchGo_spec]
    simp [ht, perDataset]
    rcases he with he | he <;> rw [he] <;> rfl

/-- C9 witness: a single dataset returning an empty list payload. -/
theorem C9_empty_payload_like_failure_witness :
    truthy ((fun _ : String => some (Data.list [])) "a") = false ∧
    fetch_and_save_all_datasets (fun _ : String => some (Data.list [])) ["a"] =
      (false, 0, [Action.sleep 2]) :=
  ⟨(C9_empty_payload_like_failure (fun _ => some (Data.list [])) ["a"] "a" (Or.inl rfl)).1,
   (C9_empty_payload_like_failure (fun _ => some (Data.list [])) ["a"] "a" (Or.inl rfl)).2.2⟩

/-- C3: on a 401 response, exactly one token re-acquisition is
attempted; a failed re-acquisition, or a retried request that is 401
again, returns Failure immediately (no sleeps, no further attempts);
while a 200 on the retried request is a normal success. -/
theorem C3_unauthorized_single_renewal (fmt : OutFmt) (resps : Nat → RespE)
    (auths : Nat → Bool) (b : BodyE) (h0 : resps 0 = RespE.http 401 b) :
    (auths 0 = false → fetch_dataset fmt resps auths = (none, ⟨1, 1, []⟩)) ∧
    (∀ b2, auths 0 = true → resps 1 = RespE.http 401 b2 →
      fetch_dataset fmt resps auths = (none, ⟨2, 1, []⟩)) ∧
    (∀ dd, auths 0 = true → resps 1 = RespE.http 200 (BodyE.json dd) →
      fetch_dataset fmt resps auths = (some dd, ⟨2, 1, []⟩)) := by
  refine ⟨?_, ?_, ?_⟩
  · intro ha
    rw [fetch_dataset, fetchGo]
    simp [h0, ha]
  · intro b2 ha h1
    rw [fetch_dataset, fetchGo]
    simp [h0, ha, h1]
  · intro dd ha h1
    rw [fetch_dataset, fetchGo]
    simp [h0, ha, h1, decodeBody]

/-- C3 witness: the three 401 scenarios on concrete response scripts. -/
theorem C3_unauthorized_single_renewal_witness :
    fetch_dataset .json (fun _ => RespE.http 401 (BodyE.text "")) (fun _ => false) =
      (none, ⟨1, 1, []⟩) ∧
    fetch_dataset .json (fun _ => RespE.http 401 (BodyE.text "")) (fun _ => true) =
      (none, ⟨2, 1, []⟩) ∧
    fetch_dataset .json
      (fun n => if n = 0 then RespE.http 401 (BodyE.text "")
        else RespE.http 200 (BodyE.json (Data.list []))) (fun _ => true) =
      (some (Data.list []), ⟨2, 1, []⟩) :=
  ⟨(C3_unauthorized_single_renewal .json _ _ _ rfl).1 rfl,
   (C3_unauthorized_single_renewal .json _ _ _ rfl).2.1 _ rfl rfl,
   (C3_unauthorized_single_renewal .json _ _ _ rfl).2.2 _ rfl rfl⟩

/-- C4: when every issued request yields a non-200 non-401 status, the
loop makes exactly 3 requests with backoff sleeps of 2 then 4 seconds
between them, attempts no re-authentication, and returns Failure. -/
theorem C4_exhausted_retries (fmt : OutFmt) (resps : Nat → RespE) (auths : Nat → Bool)
    (h : ∀ i, i < 3 → errStatus (resps i) = true) :
    fetch_dataset fmt resps auths = (none, ⟨3, 0, [2, 4]⟩) := by
  have h0 := h 0 (by norm_num)
  have h1 := h 1 (by norm_num)
  have h2 := h 2 (by norm_num)
  match hr0 : resps 0 with
  | .exn => rw [hr0] at h0; simp [errStatus] at h0
  | .http c0 b0 =>
    rw [hr0] at h0
    simp only [errStatus, Bool.and_eq_true, decide_eq_true_eq] at h0
    match hr1 : resps 1 with
    | .exn => rw [hr1] at h1; simp [errStatus] at h1
    | .http c1 b1 =>
      rw [hr1] at h1
      simp only [errStatus, Bool.and_eq_true, decide_eq_true_eq] at h1
      match hr2 : resps 2 with
      | .exn => rw [hr2] at h2; simp [errStatus] at h2
      | .http c2 b2 =>
        rw [hr2] at h2
        simp only [errStatus, Bool.and_eq_true, decide_eq_true_eq] at h2
        rw [fetch_dataset, fetchGo]
        rw [dif_pos (by norm_num : (0 : Nat) < 3)]
        simp only [hr0]
        rw [if_neg h0.2, if_pos h0.1, if_pos (by norm_num : 0 + 1 < 3)]
        show fetchGo fmt resps auths 1 ⟨1, 0, [2]⟩ = _
        rw [fetchGo]
        rw [dif_pos (by norm_num : (1 : Nat) < 3)]
        simp only [hr1]
        rw [if_neg h1.2, if_pos h1.1, if_pos (by norm_num : 1 + 1 < 3)]
        show fetchGo fmt resps auths 2 ⟨2, 0, [2, 4]⟩ = _
        rw [fetchGo]
        rw [dif_pos (by norm_num : (2 : Nat) < 3)]
        simp only [hr2]
        rw [if_neg h2.2, if_pos h2.1, if_neg (by norm_num : ¬(2 + 1 < 3))]

/-- C4 witness: a script of constant 500 responses. -/
theorem C4_exhausted_retries_witness :
    fetch_dataset .json (fun _ => RespE.http 500 (BodyE.text "")) (fun _ => false) =
      (none, ⟨3, 0, [2, 4]⟩) :=
  C4_exhausted_retries .json _ _ (fun i _ => by decide)

/-- C10 witness: the two-component date "05/01". -/
theorem C10_slash_without_three_parts_witness :
    dayKey "05/01" = ⟨stripTimeL ("05/01").data⟩ ∧
    ∃ xs, ((⟨stripTimeL ("05/01").data⟩ : String), xs) ∈
        (processList [Item.obj [("datum", JVal.str "05/01")]]).1 ∧
      [("datum", JVal.str "05/01")] ∈ xs := by
  have h := C10_slash_without_three_parts "05/01" (by decide) (by decide)
  exact ⟨h.1, h.2 _ _ (by simp) rfl⟩

/-! ## CSV round-trip lemmas -/

end LinzScraper
